import Mathlib

/-!
Verification of the tool-calling core of `ai-agent-v2`
(`src/tool_caller`): the tool contract (`tools/base.py`), the registry
(`core/tool_registry.py`), the concurrent executor
(`core/tool_executor.py`) and the request orchestrator (`cli.py`).

Shallow embedding conventions:
* Python values passed as tool arguments / results are modelled by the
  inductive `Value`; keyword-argument mappings are association lists.
* Python `dict` objects are modelled as association lists with
  insertion-order semantics (`dictSet` updates an existing key in place,
  otherwise appends at the end).
* Raising an exception is modelled with `Except String`: `Except.error s`
  is a raised exception whose `str(...)` is `s`.
* Wall-clock timing (`time.time()` differences) is abstracted: each tool
  carries an `elapsed` function giving the measured duration of an
  attempt on given arguments.
* `asyncio.gather(*tasks, return_exceptions=True)` is modelled by an
  explicit completion schedule: an arbitrary list `order` of task
  indices in the order the event loop completes them; each completion
  stores that task's terminal state in its own slot.  `gather` returns
  once every index has completed, which yields the list of terminal
  states in task order.
-/

set_option autoImplicit false

namespace ToolCaller

/-- A Python value as used for tool arguments and results. -/
inductive Value where
  | vNone : Value
  | vBool : Bool → Value
  | vInt : Int → Value
  | vStr : String → Value
  | vList : List Value → Value
  | vDict : List (String × Value) → Value
  deriving Repr, Inhabited

/-- A Python keyword-argument mapping (`Dict[str, Any]`). -/
abbrev Args := List (String × Value)

section Dict

variable {α : Type}

/-- `d[k]` lookup returning `None` when absent (`dict.get`). -/
def dictGet (d : List (String × α)) (k : String) : Option α :=
  match d with
  | [] => none
  | (k', v) :: rest => if k' = k then some v else dictGet rest k

/-- `k in d` membership test on a Python dict. -/
def dictContains (d : List (String × α)) (k : String) : Bool :=
  match d with
  | [] => false
  | (k', _) :: rest => k' = k || dictContains rest k

/-- `d[k] = v`: update the existing entry in place, else append. -/
def dictSet (d : List (String × α)) (k : String) (v : α) : List (String × α) :=
  match d with
  | [] => [(k, v)]
  | (k', v') :: rest => if k' = k then (k, v) :: rest else (k', v') :: dictSet rest k v

/-- `del d[k]` (callers check membership first; absent keys just vanish). -/
def dictDel (d : List (String × α)) (k : String) : List (String × α) :=
  match d with
  | [] => []
  | (k', v') :: rest => if k' = k then dictDel rest k else (k', v') :: dictDel rest k

/-- `list(d.keys())`. -/
def dictKeys (d : List (String × α)) : List String :=
  d.map Prod.fst

/-- `list(d.values())`. -/
def dictValues (d : List (String × α)) : List α :=
  d.map Prod.snd

end Dict

/-- `ToolSchema` (tools/base.py): metadata describing a tool. -/
structure ToolSchema where
  name : String
  description : String
  parameters : Value
  deriving Repr, Inhabited

/-- `ToolResponse` (tools/base.py): standardized response from tool
execution.  `execution_time` is `Optional[float]`, modelled as an
abstract `Option Nat` duration. -/
structure ToolResponse where
  success : Bool
  result : Option Value := none
  error : Option String := none
  execution_time : Option Nat := none
  deriving Repr, Inhabited

/-- A tool call as handed to the executor: the executor reads
`tool_call.name` and `tool_call.arguments`. -/
structure ToolCall where
  id : String
  name : String
  arguments : Args
  deriving Repr, Inhabited

/-- `ExecutionResult` (models/responses.py), restricted to the fields the
executor populates.  The remaining fields (`id`, `tool_call_id`,
`timestamp`, `metadata`) are environment-generated defaults that no
claim mentions.  `result` defaults to `None` and `error`,
`execution_time` are `Optional`, so all three are `Option`s with
default `none`. -/
structure ExecutionResult where
  tool_name : String
  success : Bool
  result : Option Value := none
  error : Option String := none
  execution_time : Option Nat := none
  deriving Repr, Inhabited

/-- `BaseTool` (tools/base.py).  A tool supplies its identity, schema,
the pure structural check `validate_parameters` (defined by every
concrete tool), the optional pydantic coercion `parameters_model`
(coerces the kwargs or raises a `ValidationError` whose message is the
`String`), and the core logic `_run` (which may raise).  `elapsed` is
the abstract wall-clock duration measured for an attempt on the given
arguments. -/
structure BaseTool where
  name : String
  description : String
  schema : ToolSchema
  validate_parameters : Args → Bool
  parameters_model : Option (Args → Except String Args) := none
  run : Args → Except String Value
  elapsed : Args → Nat

/-- `BaseTool.execute` (tools/base.py lines 72–102): wraps
`parameters_model` coercion and `_run` in try/except, converting every
failure into a failed `ToolResponse` with the elapsed time; successes
carry the result and the elapsed time. -/
def BaseTool.execute (tool : BaseTool) (kwargs : Args) : ToolResponse :=
  match tool.parameters_model with
  | some pm =>
    match pm kwargs with
    | Except.error ve =>
      { success := false
        error := some ("Parameter validation error: " ++ ve)
        execution_time := some (tool.elapsed kwargs) }
    | Except.ok kwargs' =>
      match tool.run kwargs' with
      | Except.ok r =>
        { success := true, result := some r
          execution_time := some (tool.elapsed kwargs) }
      | Except.error e =>
        { success := false, error := some e
          execution_time := some (tool.elapsed kwargs) }
  | none =>
    match tool.run kwargs with
    | Except.ok r =>
      { success := true, result := some r
        execution_time := some (tool.elapsed kwargs) }
    | Except.error e =>
      { success := false, error := some e
        execution_time := some (tool.elapsed kwargs) }

/-- The effective outcome of the code guarded by the outer `try` in
`BaseTool.execute`: the pydantic coercion (when present) followed by
`_run`, with the coercion failure converted to the message the code
formats.  `execute` succeeds exactly when this is `Except.ok`. -/
def BaseTool.coreOutcome (tool : BaseTool) (kwargs : Args) : Except String Value :=
  match tool.parameters_model with
  | some pm =>
    match pm kwargs with
    | Except.error ve => Except.error ("Parameter validation error: " ++ ve)
    | Except.ok kwargs' => tool.run kwargs'
  | none => tool.run kwargs

/-- `ToolRegistry` (core/tool_registry.py): two insertion-ordered dicts,
`_tools : name → tool` and `_schemas : name → schema`. -/
structure ToolRegistry where
  _tools : List (String × BaseTool)
  _schemas : List (String × ToolSchema)

/-- `ToolRegistry()` — fresh registry with empty maps. -/
def ToolRegistry.empty : ToolRegistry :=
  { _tools := [], _schemas := [] }

/-- `ToolRegistry.register_tool`: stores the tool and its schema under
`tool.name`; an existing entry is overwritten (only a warning is
logged). -/
def ToolRegistry.register_tool (r : ToolRegistry) (tool : BaseTool) : ToolRegistry :=
  { _tools := dictSet r._tools tool.name tool
    _schemas := dictSet r._schemas tool.name tool.schema }

/-- `ToolRegistry.unregister_tool`: removes the entry if present;
absence is a logged no-op (the function returns without raising). -/
def ToolRegistry.unregister_tool (r : ToolRegistry) (tool_name : String) : ToolRegistry :=
  if dictContains r._tools tool_name then
    { _tools := dictDel r._tools tool_name
      _schemas := dictDel r._schemas tool_name }
  else
    r

/-- `ToolRegistry.get_tool`: `self._tools.get(tool_name)`. -/
def ToolRegistry.get_tool (r : ToolRegistry) (tool_name : String) : Option BaseTool :=
  dictGet r._tools tool_name

/-- `ToolRegistry.get_all_schemas`: `list(self._schemas.values())`. -/
def ToolRegistry.get_all_schemas (r : ToolRegistry) : List ToolSchema :=
  dictValues r._schemas

/-- `ToolRegistry.get_all_tool_names`: `list(self._tools.keys())`. -/
def ToolRegistry.get_all_tool_names (r : ToolRegistry) : List String :=
  dictKeys r._tools

/-- One registry mutation, for stating invariants over arbitrary
operation sequences. -/
inductive RegOp where
  | reg : BaseTool → RegOp
  | unreg : String → RegOp

/-- Apply one registry operation. -/
def RegOp.apply (r : ToolRegistry) : RegOp → ToolRegistry
  | RegOp.reg t => r.register_tool t
  | RegOp.unreg n => r.unregister_tool n

/-- Apply a sequence of registry operations in order. -/
def ToolRegistry.applyOps (r : ToolRegistry) (ops : List RegOp) : ToolRegistry :=
  ops.foldl RegOp.apply r

/-- `ToolExecutor._execute_single_tool` (core/tool_executor.py lines
49–80) as the terminal state of the spawned task: `Except.error s` is
the task raising an exception with message `s` (collected by `gather`
with `return_exceptions=True`), `Except.ok` is a returned
`ExecutionResult`. -/
def execute_single_tool (registry : ToolRegistry) (tool_call : ToolCall) :
    Except String ExecutionResult :=
  let tool_name := tool_call.name
  let parameters := tool_call.arguments
  match registry.get_tool tool_name with
  | none => Except.error ("Tool " ++ tool_name ++ " not found")
  | some tool =>
    if ¬ tool.validate_parameters parameters then
      Except.error ("Invalid parameters for tool " ++ tool_name)
    else
      let result := tool.execute parameters
      Except.ok
        { tool_name := tool_name
          success := result.success
          result := result.result
          error := result.error
          execution_time := result.execution_time }

/-- Event-loop slot filling: process the completion schedule `order`;
completing task `j` stores task `j`'s terminal state in slot `j`. -/
def fillSlots {τ : Type} (tasks : List τ) (order : List Nat)
    (slots : List (Option τ)) : List (Option τ) :=
  match order with
  | [] => slots
  | j :: rest => fillSlots tasks rest (slots.set j tasks[j]?)

/-- `order` is a run of the event loop in which every one of the `n`
tasks reaches a terminal state. -/
def CompleteOrder (order : List Nat) (n : Nat) : Prop :=
  ∀ i, i < n → i ∈ order

/-- `asyncio.gather(*tasks, return_exceptions=True)` under completion
schedule `order`: returns after all slots fill, in task order.  The
`Except.error "pending"` default is never read on a complete order. -/
def asyncioGather {τ : Type} [Inhabited τ] (tasks : List τ) (order : List Nat) : List τ :=
  let slots := fillSlots tasks order (List.replicate tasks.length none)
  (List.range tasks.length).map (fun i => ((slots[i]?).bind id).getD default)

instance : Inhabited (Except String ExecutionResult) :=
  ⟨Except.error "pending"⟩

/-- The body of the aggregation loop in `execute_tool_calls` (lines
35–44): a gathered exception becomes a failed `ExecutionResult` named
after the call at the same index (no `execution_time` is passed, so it
defaults to `None`); a returned result is appended verbatim. -/
def collectResult (tool_call : ToolCall) : Except String ExecutionResult → ExecutionResult
  | Except.error msg =>
    { tool_name := tool_call.name, success := false, error := some msg }
  | Except.ok res => res

/-- `ToolExecutor.execute_tool_calls` (core/tool_executor.py lines
16–47): empty input short-circuits to `[]`; otherwise one task per call
is scheduled, gathered with `return_exceptions=True`, and the loop
`for i, result in enumerate(results)` pairs `results[i]` with
`tool_calls[i]` and collects one `ExecutionResult` per slot. -/
def execute_tool_calls (registry : ToolRegistry) (tool_calls : List ToolCall)
    (order : List Nat) : List ExecutionResult :=
  if tool_calls.isEmpty then []
  else
    let tasks := tool_calls.map (fun c => execute_single_tool registry c)
    let results := asyncioGather tasks order
    (tool_calls.zip results).map (fun p => collectResult p.1 p.2)

/-- The provider response consumed by the orchestrator: text content
plus the (possibly empty) list of requested tool calls. -/
structure LLMResponse where
  content : String
  tool_calls : List ToolCall

/-- `process_single_request` (cli.py lines 57–74).  The reasoning
provider is abstracted into the two operations the code calls:
`process_user_input` ("decide") and `generate_final_response`
("synthesize").  Returns the text echoed to the user. -/
def process_single_request (user_input : String)
    (process_user_input : String → List ToolSchema → LLMResponse)
    (generate_final_response : String → List ExecutionResult → String)
    (registry : ToolRegistry) (order : List Nat) : String :=
  let tool_schemas := registry.get_all_schemas
  let llm_response := process_user_input user_input tool_schemas
  if llm_response.tool_calls.isEmpty then
    llm_response.content
  else
    let execution_results := execute_tool_calls registry llm_response.tool_calls order
    generate_final_response user_input execution_results

/-- The relationship `register_tool`/`unregister_tool` maintain between
the two maps: `_schemas` is the key-wise image of `_tools` under
`BaseTool.schema`. -/
def SchemasTrackTools (r : ToolRegistry) : Prop :=
  r._schemas = r._tools.map (fun p => (p.1, p.2.schema))

/-- The registered tool names stay duplicate-free. -/
def NodupKeys (r : ToolRegistry) : Prop :=
  (dictKeys r._tools).Nodup

/-! ### Concrete fixtures (spec §8 scenario) -/

/-- A sample tool that always succeeds, returning `{sum: a+b}`. -/
def addTool : BaseTool :=
  { name := "add"
    description := "adds two integers"
    schema :=
      { name := "add", description := "adds two integers"
        parameters := Value.vDict [("a", Value.vStr "integer"), ("b", Value.vStr "integer")] }
    validate_parameters := fun args =>
      (dictGet args "a").isSome && (dictGet args "b").isSome
    run := fun args =>
      match dictGet args "a", dictGet args "b" with
      | some (Value.vInt a), some (Value.vInt b) =>
        Except.ok (Value.vDict [("sum", Value.vInt (a + b))])
      | _, _ => Except.error "operands must be integers"
    elapsed := fun _ => 2 }

/-- A sample tool whose core logic always raises. -/
def boomTool : BaseTool :=
  { name := "boom"
    description := "always raises"
    schema := { name := "boom", description := "always raises", parameters := Value.vNone }
    validate_parameters := fun _ => true
    run := fun _ => Except.error "boom"
    elapsed := fun _ => 1 }

/-- A tool whose `validate_parameters` rejects every argument mapping. -/
def fussyTool : BaseTool :=
  { name := "fussy"
    description := "rejects all arguments"
    schema := { name := "fussy", description := "rejects all arguments", parameters := Value.vNone }
    validate_parameters := fun _ => false
    run := fun _ => Except.ok Value.vNone
    elapsed := fun _ => 1 }

/-- A replacement tool registered under the same name as `addTool`. -/
def addToolV2 : BaseTool :=
  { addTool with
    description := "adds two integers, second revision"
    run := fun _ => Except.ok Value.vNone }

/-- Registry holding `addTool` and `boomTool`. -/
def sampleRegistry : ToolRegistry :=
  (ToolRegistry.empty.register_tool addTool).register_tool boomTool

/-- Registry holding only `fussyTool`. -/
def fussyRegistry : ToolRegistry :=
  ToolRegistry.empty.register_tool fussyTool

/-- A call naming a tool that is registered nowhere. -/
def fooCall : ToolCall :=
  { id := "c0", name := "foo", arguments := [] }

/-- A valid call to `addTool` with `a = 2`, `b = 3`. -/
def addCall : ToolCall :=
  { id := "c1", name := "add", arguments := [("a", Value.vInt 2), ("b", Value.vInt 3)] }

/-- A call to the always-raising `boomTool`. -/
def boomCall : ToolCall :=
  { id := "c2", name := "boom", arguments := [] }

/-- A call to `fussyTool` (whose validation rejects everything). -/
def fussyCall : ToolCall :=
  { id := "c3", name := "fussy", arguments := [] }

/-- A provider "decide" operation that returns plain text and no calls. -/
def puiNoCalls : String → List ToolSchema → LLMResponse :=
  fun _ _ => { content := "plain answer", tool_calls := [] }

/-- A provider "decide" operation that requests the `addCall` tool call. -/
def puiWithCalls : String → List ToolSchema → LLMResponse :=
  fun _ _ => { content := "", tool_calls := [addCall] }

/-- A provider "synthesize" operation: user text plus outcome count. -/
def gfrLen : String → List ExecutionResult → String :=
  fun user_input results => user_input ++ toString results.length

/-! ### Event-loop and executor lemmas -/

section GatherLemmas

variable {τ : Type}

theorem fillSlots_length (tasks : List τ) (order : List Nat)
    (slots : List (Option τ)) :
    (fillSlots tasks order slots).length = slots.length := by
  induction order generalizing slots with
  | nil => rfl
  | cons j rest ih =>
    simp [fillSlots, ih]

theorem fillSlots_getElem?_not_mem (tasks : List τ) (order : List Nat)
    (slots : List (Option τ)) (i : Nat) (h : i ∉ order) :
    (fillSlots tasks order slots)[i]? = slots[i]? := by
  induction order generalizing slots with
  | nil => rfl
  | cons j rest ih =>
    simp only [List.mem_cons, not_or] at h
    rw [show fillSlots tasks (j :: rest) slots
        = fillSlots tasks rest (slots.set j tasks[j]?) from rfl]
    rw [ih (slots.set j tasks[j]?) h.2]
    exact List.getElem?_set_ne (fun he => h.1 he.symm)

theorem fillSlots_getElem?_mem (tasks : List τ) (order : List Nat)
    (slots : List (Option τ)) (i : Nat) (hmem : i ∈ order)
    (hlen : i < slots.length) :
    (fillSlots tasks order slots)[i]? = some tasks[i]? := by
  induction order generalizing slots with
  | nil => exact absurd hmem (List.not_mem_nil i)
  | cons j rest ih =>
    rw [show fillSlots tasks (j :: rest) slots
        = fillSlots tasks rest (slots.set j tasks[j]?) from rfl]
    by_cases hr : i ∈ rest
    · exact ih (slots.set j tasks[j]?) hr (by simpa using hlen)
    · have hij : i = j := by
        rcases List.mem_cons.mp hmem with h | h
        · exact h
        · exact absurd h hr
      subst hij
      rw [fillSlots_getElem?_not_mem tasks rest (slots.set i tasks[i]?) i hr]
      exact List.getElem?_set_eq_of_lt tasks[i]? hlen

theorem asyncioGather_complete [Inhabited τ] (tasks : List τ) (order : List Nat)
    (h : CompleteOrder order tasks.length) :
    asyncioGather tasks order = tasks := by
  apply List.ext_getElem
  · simp [asyncioGather]
  · intro i h1 h2
    simp only [asyncioGather, List.getElem_map, List.getElem_range]
    have hi : i < tasks.length := h2
    rw [fillSlots_getElem?_mem tasks order (List.replicate tasks.length none) i
      (h i hi) (by simpa using hi)]
    simp [List.getElem?_eq_getElem hi]

end GatherLemmas

theorem zip_self_map {α β : Type} (l : List α) (f : α → β) :
    l.zip (l.map f) = l.map (fun a => (a, f a)) := by
  induction l with
  | nil => rfl
  | cons x xs ih => simp [ih]

theorem execute_tool_calls_complete (registry : ToolRegistry)
    (tool_calls : List ToolCall) (order : List Nat)
    (h : CompleteOrder order tool_calls.length) :
    execute_tool_calls registry tool_calls order =
      tool_calls.map (fun c => collectResult c (execute_single_tool registry c)) := by
  unfold execute_tool_calls
  by_cases he : tool_calls.isEmpty
  · rw [if_pos he]
    rw [List.isEmpty_iff.mp he]
    rfl
  · rw [if_neg he]
    have hg : asyncioGather (tool_calls.map (fun c => execute_single_tool registry c))
        order = tool_calls.map (fun c => execute_single_tool registry c) := by
      apply asyncioGather_complete
      simpa using h
    simp only [hg]
    rw [zip_self_map tool_calls (fun c => execute_single_tool registry c), List.map_map]
    rfl

theorem execute_tool_calls_getElem? (registry : ToolRegistry)
    (tool_calls : List ToolCall) (order : List Nat)
    (h : CompleteOrder order tool_calls.length) (i : Nat)
    (hi : i < tool_calls.length) :
    (execute_tool_calls registry tool_calls order)[i]? =
      some (collectResult tool_calls[i] (execute_single_tool registry tool_calls[i])) := by
  rw [execute_tool_calls_complete registry tool_calls order h]
  rw [List.getElem?_map, List.getElem?_eq_getElem hi]
  rfl

theorem execute_single_tool_ok_tool_name (registry : ToolRegistry)
    (tool_call : ToolCall) (res : ExecutionResult)
    (h : execute_single_tool registry tool_call = Except.ok res) :
    res.tool_name = tool_call.name := by
  simp only [execute_single_tool] at h
  cases hg : registry.get_tool tool_call.name with
  | none => rw [hg] at h; simp at h
  | some tool =>
    rw [hg] at h
    by_cases hv : tool.validate_parameters tool_call.arguments
    · simp only [hv, not_true_eq_false, if_false, Except.ok.injEq] at h
      rw [← h]
    · simp only [hv, not_false_eq_true, if_true] at h
      simp at h

theorem collectResult_tool_name (registry : ToolRegistry) (tool_call : ToolCall) :
    (collectResult tool_call (execute_single_tool registry tool_call)).tool_name
      = tool_call.name := by
  cases he : execute_single_tool registry tool_call with
  | error msg => rfl
  | ok res =>
    show res.tool_name = tool_call.name
    exact execute_single_tool_ok_tool_name registry tool_call res he

/-! ### Tool-contract lemmas -/

theorem execute_success (tool : BaseTool) (kwargs : Args) (v : Value)
    (h : tool.coreOutcome kwargs = Except.ok v) :
    tool.execute kwargs =
      { success := true, result := some v, error := none,
        execution_time := some (tool.elapsed kwargs) } := by
  cases hpm : tool.parameters_model with
  | none =>
    simp only [BaseTool.coreOutcome, hpm] at h
    simp only [BaseTool.execute, hpm, h]
  | some pm =>
    simp only [BaseTool.coreOutcome, hpm] at h
    cases hc : pm kwargs with
    | error ve => rw [hc] at h; simp at h
    | ok kwargs2 =>
      rw [hc] at h
      simp only at h
      simp only [BaseTool.execute, hpm, hc, h]

theorem execute_failure (tool : BaseTool) (kwargs : Args) (e : String)
    (h : tool.coreOutcome kwargs = Except.error e) :
    tool.execute kwargs =
      { success := false, result := none, error := some e,
        execution_time := some (tool.elapsed kwargs) } := by
  cases hpm : tool.parameters_model with
  | none =>
    simp only [BaseTool.coreOutcome, hpm] at h
    simp only [BaseTool.execute, hpm, h]
  | some pm =>
    simp only [BaseTool.coreOutcome, hpm] at h
    cases hc : pm kwargs with
    | error ve =>
      rw [hc] at h
      simp only [Except.error.injEq] at h
      simp only [BaseTool.execute, hpm, hc, h]
    | ok kwargs2 =>
      rw [hc] at h
      simp only at h
      simp only [BaseTool.execute, hpm, hc, h]

theorem execute_cases (tool : BaseTool) (kwargs : Args) :
    (∃ v, tool.execute kwargs =
      { success := true, result := some v, error := none,
        execution_time := some (tool.elapsed kwargs) })
    ∨ (∃ e, tool.execute kwargs =
      { success := false, result := none, error := some e,
        execution_time := some (tool.elapsed kwargs) }) := by
  cases hco : tool.coreOutcome kwargs with
  | ok v => exact Or.inl ⟨v, execute_success tool kwargs v hco⟩
  | error e => exact Or.inr ⟨e, execute_failure tool kwargs e hco⟩

/-! ### Single-call characterization -/

theorem est_not_found (registry : ToolRegistry) (tool_call : ToolCall)
    (hg : registry.get_tool tool_call.name = none) :
    execute_single_tool registry tool_call =
      Except.error ("Tool " ++ tool_call.name ++ " not found") := by
  simp only [execute_single_tool, hg]

theorem est_invalid (registry : ToolRegistry) (tool_call : ToolCall) (tool : BaseTool)
    (hg : registry.get_tool tool_call.name = some tool)
    (hv : tool.validate_parameters tool_call.arguments = false) :
    execute_single_tool registry tool_call =
      Except.error ("Invalid parameters for tool " ++ tool_call.name) := by
  simp only [execute_single_tool, hg, hv]
  simp

theorem est_ok (registry : ToolRegistry) (tool_call : ToolCall) (tool : BaseTool)
    (hg : registry.get_tool tool_call.name = some tool)
    (hv : tool.validate_parameters tool_call.arguments = true) :
    execute_single_tool registry tool_call =
      Except.ok
        { tool_name := tool_call.name
          success := (tool.execute tool_call.arguments).success
          result := (tool.execute tool_call.arguments).result
          error := (tool.execute tool_call.arguments).error
          execution_time := (tool.execute tool_call.arguments).execution_time } := by
  simp only [execute_single_tool, hg, hv]
  simp

/-! ### Dictionary lemmas -/

section DictLemmas

variable {α β : Type}

theorem dictGet_set_self (d : List (String × α)) (k : String) (v : α) :
    dictGet (dictSet d k v) k = some v := by
  induction d with
  | nil => simp [dictSet, dictGet]
  | cons p rest ih =>
    obtain ⟨k', v'⟩ := p
    by_cases h : k' = k
    · simp [dictSet, dictGet, h]
    · simp [dictSet, dictGet, h, ih]

theorem dictContains_eq_mem_keys (d : List (String × α)) (k : String) :
    dictContains d k = true ↔ k ∈ dictKeys d := by
  induction d with
  | nil => simp [dictContains, dictKeys]
  | cons p rest ih =>
    obtain ⟨k', v'⟩ := p
    by_cases h : k' = k
    · simp [dictContains, dictKeys, h]
    · simp [dictContains, dictKeys, h, ih]
      intro he
      exact absurd he.symm h

theorem dictKeys_set (d : List (String × α)) (k : String) (v : α) :
    dictKeys (dictSet d k v) =
      if dictContains d k then dictKeys d else dictKeys d ++ [k] := by
  induction d with
  | nil => simp [dictSet, dictKeys, dictContains]
  | cons p rest ih =>
    obtain ⟨k', v'⟩ := p
    simp only [dictKeys] at ih
    by_cases h : k' = k
    · simp [dictSet, dictKeys, dictContains, h]
    · by_cases hc : dictContains rest k
      · simp [dictSet, dictKeys, dictContains, h, hc, ih]
      · simp [dictSet, dictKeys, dictContains, h, hc, ih]

theorem dictKeys_del (d : List (String × α)) (k : String) :
    dictKeys (dictDel d k) = (dictKeys d).filter (fun k' => ¬ k' = k) := by
  induction d with
  | nil => simp [dictDel, dictKeys]
  | cons p rest ih =>
    obtain ⟨k', v'⟩ := p
    simp only [dictKeys] at ih
    by_cases h : k' = k
    · simp [dictDel, dictKeys, h, ih, List.filter_cons]
    · simp [dictDel, dictKeys, h, ih, List.filter_cons]

theorem dictKeys_mapVals (d : List (String × α)) (g : α → β) :
    dictKeys (d.map (fun p => (p.1, g p.2))) = dictKeys d := by
  induction d with
  | nil => rfl
  | cons p rest ih => simp [dictKeys] at ih ⊢

theorem dictContains_mapVals (d : List (String × α)) (g : α → β) (k : String) :
    dictContains (d.map (fun p => (p.1, g p.2))) k = dictContains d k := by
  induction d with
  | nil => rfl
  | cons p rest ih => simp [dictContains, ih]

theorem dictSet_mapVals (d : List (String × α)) (g : α → β) (k : String) (v : α) :
    dictSet (d.map (fun p => (p.1, g p.2))) k (g v) =
      (dictSet d k v).map (fun p => (p.1, g p.2)) := by
  induction d with
  | nil => rfl
  | cons p rest ih =>
    obtain ⟨k', v'⟩ := p
    by_cases h : k' = k
    · simp [dictSet, h]
    · simp [dictSet, h, ih]

theorem dictDel_mapVals (d : List (String × α)) (g : α → β) (k : String) :
    dictDel (d.map (fun p => (p.1, g p.2))) k =
      (dictDel d k).map (fun p => (p.1, g p.2)) := by
  induction d with
  | nil => rfl
  | cons p rest ih =>
    obtain ⟨k', v'⟩ := p
    by_cases h : k' = k
    · simp [dictDel, h, ih]
    · simp [dictDel, h, ih]

theorem dictGet_mapVals (d : List (String × α)) (g : α → β) (k : String) :
    dictGet (d.map (fun p => (p.1, g p.2))) k = (dictGet d k).map g := by
  induction d with
  | nil => rfl
  | cons p rest ih =>
    obtain ⟨k', v'⟩ := p
    by_cases h : k' = k
    · simp [dictGet, h]
    · simp [dictGet, h, ih]

theorem nodup_keys_set (d : List (String × α)) (k : String) (v : α)
    (h : (dictKeys d).Nodup) : (dictKeys (dictSet d k v)).Nodup := by
  rw [dictKeys_set]
  by_cases hc : dictContains d k
  · simpa [hc]
  · simp only [hc, if_false]
    refine List.Nodup.append h (List.nodup_singleton k) ?_
    intro a ha hb
    rw [List.mem_singleton] at hb
    subst hb
    exact hc ((dictContains_eq_mem_keys d a).mpr ha)

end DictLemmas

/-! ### Registry invariants -/

theorem schemasTrackTools_empty : SchemasTrackTools ToolRegistry.empty := rfl

theorem schemasTrackTools_apply (r : ToolRegistry) (op : RegOp)
    (h : SchemasTrackTools r) : SchemasTrackTools (RegOp.apply r op) := by
  cases op with
  | reg t =>
    show dictSet r._schemas t.name t.schema =
      (dictSet r._tools t.name t).map (fun p => (p.1, p.2.schema))
    rw [h]
    exact dictSet_mapVals r._tools (fun tl => tl.schema) t.name t
  | unreg n =>
    show SchemasTrackTools (r.unregister_tool n)
    unfold ToolRegistry.unregister_tool
    by_cases hc : dictContains r._tools n
    · simp only [hc, if_true]
      show dictDel r._schemas n = (dictDel r._tools n).map (fun p => (p.1, p.2.schema))
      rw [h]
      exact dictDel_mapVals r._tools (fun tl => tl.schema) n
    · simpa [hc] using h

theorem schemasTrackTools_applyOps (ops : List RegOp) :
    SchemasTrackTools (ToolRegistry.empty.applyOps ops) := by
  suffices hgen : ∀ (r : ToolRegistry), SchemasTrackTools r →
      SchemasTrackTools (r.applyOps ops) from
    hgen ToolRegistry.empty schemasTrackTools_empty
  induction ops with
  | nil => intro r h; exact h
  | cons op rest ih =>
    intro r h
    exact ih (RegOp.apply r op) (schemasTrackTools_apply r op h)

theorem nodupKeys_empty : NodupKeys ToolRegistry.empty := List.nodup_nil

theorem nodupKeys_apply (r : ToolRegistry) (op : RegOp)
    (h : NodupKeys r) : NodupKeys (RegOp.apply r op) := by
  cases op with
  | reg t => exact nodup_keys_set r._tools t.name t h
  | unreg n =>
    show NodupKeys (r.unregister_tool n)
    unfold ToolRegistry.unregister_tool
    by_cases hc : dictContains r._tools n
    · simp only [hc, if_true]
      show (dictKeys (dictDel r._tools n)).Nodup
      rw [dictKeys_del]
      exact h.filter _
    · simpa [hc] using h

theorem nodupKeys_applyOps (ops : List RegOp) :
    NodupKeys (ToolRegistry.empty.applyOps ops) := by
  suffices hgen : ∀ (r : ToolRegistry), NodupKeys r → NodupKeys (r.applyOps ops) from
    hgen ToolRegistry.empty nodupKeys_empty
  induction ops with
  | nil => intro r h; exact h
  | cons op rest ih =>
    intro r h
    exact ih (RegOp.apply r op) (nodupKeys_apply r op h)

theorem mem_keys_set {α : Type} (d : List (String × α)) (k : String) (v : α) :
    k ∈ dictKeys (dictSet d k v) := by
  rw [dictKeys_set]
  by_cases hc : dictContains d k
  · simpa [hc] using (dictContains_eq_mem_keys d k).mp hc
  · simp [hc]

/-! ### Claims -/

/-- C8: registering a tool under an already-registered name overwrites
the previous entry (last write wins): `get_tool` then returns the
replacement and `get_all_tool_names` lists the name exactly once. -/
theorem claim_C8_register_overwrites (r : ToolRegistry) (t1 t2 : BaseTool)
    (hname : t2.name = t1.name) (hnodup : r.get_all_tool_names.Nodup) :
    ((r.register_tool t1).register_tool t2).get_tool t1.name = some t2
    ∧ ((r.register_tool t1).register_tool t2).get_all_tool_names.count t1.name = 1 := by
  constructor
  · show dictGet (dictSet (dictSet r._tools t1.name t1) t2.name t2) t1.name = some t2
    rw [hname]
    exact dictGet_set_self (dictSet r._tools t1.name t1) t1.name t2
  · show (dictKeys (dictSet (dictSet r._tools t1.name t1) t2.name t2)).count t1.name = 1
    rw [hname]
    have hnd := nodup_keys_set (dictSet r._tools t1.name t1) t1.name t2
      (nodup_keys_set r._tools t1.name t1 hnodup)
    exact List.count_eq_one_of_mem hnd (mem_keys_set _ t1.name t2)

/-- Witness for C8 at a concrete input: registering `addToolV2` over
`addTool` in a fresh registry leaves only `addToolV2` resolvable under
`"add"`, listed exactly once. -/
theorem claim_C8_register_overwrites_witness :
    addToolV2.name = addTool.name
    ∧ (ToolRegistry.empty.get_all_tool_names).Nodup
    ∧ ((ToolRegistry.empty.register_tool addTool).register_tool addToolV2).get_tool
        addTool.name = some addToolV2
    ∧ ((ToolRegistry.empty.register_tool addTool).register_tool
        addToolV2).get_all_tool_names.count addTool.name = 1 :=
  ⟨rfl, List.nodup_nil,
    (claim_C8_register_overwrites ToolRegistry.empty addTool addToolV2 rfl List.nodup_nil).1,
    (claim_C8_register_overwrites ToolRegistry.empty addTool addToolV2 rfl List.nodup_nil).2⟩

/-- C10: after any sequence of register/unregister operations from a
fresh registry, the tool map and schema map have the same key set (with
no duplicate names), `get_all_schemas` returns exactly the schema of
the tool stored under each name (one per registered tool, in order),
and unregistering an absent name is a no-op that does not raise. -/
theorem claim_C10_registry_invariant (ops : List RegOp) (n : String) :
    dictKeys (ToolRegistry.empty.applyOps ops)._tools
      = dictKeys (ToolRegistry.empty.applyOps ops)._schemas
    ∧ (dictKeys (ToolRegistry.empty.applyOps ops)._tools).Nodup
    ∧ (ToolRegistry.empty.applyOps ops).get_all_schemas
      = (ToolRegistry.empty.applyOps ops)._tools.map (fun p => p.2.schema)
    ∧ (∀ nm tool, (ToolRegistry.empty.applyOps ops).get_tool nm = some tool →
        dictGet (ToolRegistry.empty.applyOps ops)._schemas nm = some tool.schema)
    ∧ (dictContains (ToolRegistry.empty.applyOps ops)._tools n = false →
        (ToolRegistry.empty.applyOps ops).unregister_tool n
          = ToolRegistry.empty.applyOps ops) := by
  have hinv : SchemasTrackTools (ToolRegistry.empty.applyOps ops) :=
    schemasTrackTools_applyOps ops
  refine ⟨?_, nodupKeys_applyOps ops, ?_, ?_, ?_⟩
  · rw [hinv, dictKeys_mapVals]
  · show dictValues (ToolRegistry.empty.applyOps ops)._schemas = _
    rw [hinv]
    simp [dictValues]
  · intro nm tool hget
    rw [hinv, dictGet_mapVals]
    show ((ToolRegistry.empty.applyOps ops).get_tool nm).map BaseTool.schema = _
    rw [hget]
    rfl
  · intro hc
    unfold ToolRegistry.unregister_tool
    rw [hc]
    rfl

/-- Witness for C10 at a concrete input: after registering `addTool`,
the schema map tracks the tool map and unregistering the absent name
`"zzz"` changes nothing. -/
theorem claim_C10_registry_invariant_witness :
    dictContains (ToolRegistry.empty.applyOps [RegOp.reg addTool])._tools "zzz" = false
    ∧ (ToolRegistry.empty.applyOps [RegOp.reg addTool]).get_tool "add" = some addTool
    ∧ dictGet (ToolRegistry.empty.applyOps [RegOp.reg addTool])._schemas "add"
        = some addTool.schema
    ∧ (ToolRegistry.empty.applyOps [RegOp.reg addTool]).unregister_tool "zzz"
        = ToolRegistry.empty.applyOps [RegOp.reg addTool] :=
  ⟨rfl, rfl,
    (claim_C10_registry_invariant [RegOp.reg addTool] "zzz").2.2.2.1 "add" addTool rfl,
    (claim_C10_registry_invariant [RegOp.reg addTool] "zzz").2.2.2.2 rfl⟩

theorem completeOrder_single : CompleteOrder [0] 1 := by
  intro i hi
  have h0 : i = 0 := by omega
  subst h0
  decide

theorem completeOrder_pair01 : CompleteOrder [0, 1] 2 := by
  intro i hi
  have h2 : i = 0 ∨ i = 1 := by omega
  rcases h2 with rfl | rfl <;> decide

theorem completeOrder_pair10 : CompleteOrder [1, 0] 2 := by
  intro i hi
  have h2 : i = 0 ∨ i = 1 := by omega
  rcases h2 with rfl | rfl <;> decide

/-- C1: for every batch handed to `execute_tool_calls` and every
completion order of the event loop, slot `i` of the returned sequence
holds the outcome for `tool_calls[i]`, and its `tool_name` matches
`tool_calls[i].name`, regardless of completion order. -/
theorem claim_C1_order_preservation (registry : ToolRegistry)
    (tool_calls : List ToolCall) (order : List Nat)
    (h : CompleteOrder order tool_calls.length) (i : Nat)
    (hi : i < tool_calls.length) :
    (execute_tool_calls registry tool_calls order)[i]? =
      some (collectResult tool_calls[i] (execute_single_tool registry tool_calls[i]))
    ∧ ∀ r, (execute_tool_calls registry tool_calls order)[i]? = some r →
        r.tool_name = tool_calls[i].name := by
  refine ⟨execute_tool_calls_getElem? registry tool_calls order h i hi, ?_⟩
  intro r hr
  rw [execute_tool_calls_getElem? registry tool_calls order h i hi,
    Option.some.injEq] at hr
  rw [← hr]
  exact collectResult_tool_name registry tool_calls[i]

/-- Witness for C1: a two-call batch where the second call completes
first (completion order `[1, 0]`); slot 0 still holds `addCall`'s
outcome. -/
theorem claim_C1_order_preservation_witness :
    CompleteOrder [1, 0] [addCall, boomCall].length
    ∧ (0 : Nat) < [addCall, boomCall].length
    ∧ (execute_tool_calls sampleRegistry [addCall, boomCall] [1, 0])[0]? =
        some (collectResult addCall (execute_single_tool sampleRegistry addCall))
    ∧ ∀ r, (execute_tool_calls sampleRegistry [addCall, boomCall] [1, 0])[0]? = some r →
        r.tool_name = addCall.name := by
  have hco : CompleteOrder [1, 0] [addCall, boomCall].length := completeOrder_pair10
  have happ := claim_C1_order_preservation sampleRegistry [addCall, boomCall] [1, 0]
    hco 0 (by decide)
  exact ⟨hco, by decide, happ.1, happ.2⟩

/-- C2: `execute_tool_calls` is total (failures are materialized as
outcomes, never raised) and returns one outcome per input call; the
empty batch returns `[]` directly. -/
theorem claim_C2_complete_outcomes (registry : ToolRegistry)
    (tool_calls : List ToolCall) (order : List Nat)
    (h : CompleteOrder order tool_calls.length) :
    (execute_tool_calls registry tool_calls order).length = tool_calls.length
    ∧ execute_tool_calls registry [] order = [] := by
  constructor
  · rw [execute_tool_calls_complete registry tool_calls order h]
    simp
  · rfl

/-- Witness for C2: a batch mixing a succeeding call and an unknown
tool still yields exactly two outcomes; the empty batch yields `[]`. -/
theorem claim_C2_complete_outcomes_witness :
    CompleteOrder [1, 0] [addCall, fooCall].length
    ∧ (execute_tool_calls sampleRegistry [addCall, fooCall] [1, 0]).length
        = [addCall, fooCall].length
    ∧ execute_tool_calls sampleRegistry [] [1, 0] = [] := by
  have hco : CompleteOrder [1, 0] [addCall, fooCall].length := completeOrder_pair10
  have happ := claim_C2_complete_outcomes sampleRegistry [addCall, fooCall] [1, 0] hco
  exact ⟨hco, happ.1, happ.2⟩

/-- C3: `BaseTool.execute` never lets a failure of the guarded code
escape: whenever the coerced run fails with message `e`, it returns a
failed `ToolResponse` carrying `error = some e` and the elapsed time;
and every response (success or failure) carries the elapsed time. -/
theorem claim_C3_execute_catches (tool : BaseTool) (kwargs : Args) :
    (∀ e, tool.coreOutcome kwargs = Except.error e →
      tool.execute kwargs =
        { success := false, result := none, error := some e,
          execution_time := some (tool.elapsed kwargs) })
    ∧ (tool.execute kwargs).execution_time = some (tool.elapsed kwargs) := by
  refine ⟨fun e h => execute_failure tool kwargs e h, ?_⟩
  rcases execute_cases tool kwargs with ⟨v, hv⟩ | ⟨e, he⟩
  · rw [hv]
  · rw [he]

/-- Witness for C3: `boomTool`'s core logic raises `"boom"` and
`execute` converts it into a failed response with that error and the
elapsed time. -/
theorem claim_C3_execute_catches_witness :
    boomTool.coreOutcome [] = Except.error "boom"
    ∧ boomTool.execute [] =
      { success := false, result := none, error := some "boom",
        execution_time := some (boomTool.elapsed []) } :=
  ⟨rfl, (claim_C3_execute_catches boomTool []).1 "boom" rfl⟩

/-- C4 as stated is false: the outcome for an unregistered tool name
carries the error `"Tool <name> not found"` (capital T), not
`"tool <name> not found"`; shown at the concrete call `fooCall` against
an empty registry. -/
theorem claim_C4_counterexample :
    ((execute_tool_calls ToolRegistry.empty [fooCall] [0]).map ExecutionResult.error
      = [some "Tool foo not found"])
    ∧ ¬ ((execute_tool_calls ToolRegistry.empty [fooCall] [0]).map ExecutionResult.error
      = [some "tool foo not found"]) :=
  ⟨rfl, by decide⟩

/-- C4 (amended): for every call whose name does not resolve, the
Executor produces — without throwing — a failed outcome at that call's
position with error `"Tool <name> not found"` and no recorded
execution time. -/
theorem claim_C4_amended_not_found (registry : ToolRegistry)
    (tool_calls : List ToolCall) (order : List Nat)
    (h : CompleteOrder order tool_calls.length) (i : Nat)
    (hi : i < tool_calls.length)
    (hnone : registry.get_tool tool_calls[i].name = none) :
    (execute_tool_calls registry tool_calls order)[i]? =
      some { tool_name := tool_calls[i].name, success := false, result := none,
             error := some ("Tool " ++ tool_calls[i].name ++ " not found"),
             execution_time := none } := by
  rw [execute_tool_calls_getElem? registry tool_calls order h i hi]
  rw [est_not_found registry tool_calls[i] hnone]
  rfl

/-- Witness for C4 (amended): the unknown call `fooCall` against the
empty registry. -/
theorem claim_C4_amended_not_found_witness :
    CompleteOrder [0] [fooCall].length
    ∧ ToolRegistry.empty.get_tool fooCall.name = none
    ∧ (execute_tool_calls ToolRegistry.empty [fooCall] [0])[0]? =
      some { tool_name := "foo", success := false, result := none,
             error := some "Tool foo not found", execution_time := none } := by
  have hco : CompleteOrder [0] [fooCall].length := completeOrder_single
  exact ⟨hco, rfl,
    claim_C4_amended_not_found ToolRegistry.empty [fooCall] [0] hco 0 (by decide) rfl⟩

/-- C5 as stated is false: the outcome for a call whose arguments fail
`validate_parameters` carries the error
`"Invalid parameters for tool <name>"` (capital I), not
`"invalid parameters for tool <name>"`; shown at the concrete call
`fussyCall`. -/
theorem claim_C5_counterexample :
    ((execute_tool_calls fussyRegistry [fussyCall] [0]).map ExecutionResult.error
      = [some "Invalid parameters for tool fussy"])
    ∧ ¬ ((execute_tool_calls fussyRegistry [fussyCall] [0]).map ExecutionResult.error
      = [some "invalid parameters for tool fussy"]) :=
  ⟨rfl, by decide⟩

/-- C5 (amended): for every call that resolves to a tool whose
`validate_parameters` rejects the arguments, the Executor produces a
failed outcome with error `"Invalid parameters for tool <name>"`, no
recorded execution time, and no effect of the tool body in the
outcome. -/
theorem claim_C5_amended_invalid (registry : ToolRegistry)
    (tool_calls : List ToolCall) (order : List Nat)
    (h : CompleteOrder order tool_calls.length) (i : Nat)
    (hi : i < tool_calls.length) (tool : BaseTool)
    (htool : registry.get_tool tool_calls[i].name = some tool)
    (hv : tool.validate_parameters tool_calls[i].arguments = false) :
    (execute_tool_calls registry tool_calls order)[i]? =
      some { tool_name := tool_calls[i].name, success := false, result := none,
             error := some ("Invalid parameters for tool " ++ tool_calls[i].name),
             execution_time := none } := by
  rw [execute_tool_calls_getElem? registry tool_calls order h i hi]
  rw [est_invalid registry tool_calls[i] tool htool hv]
  rfl

/-- Witness for C5 (amended): `fussyCall` against `fussyRegistry`. -/
theorem claim_C5_amended_invalid_witness :
    CompleteOrder [0] [fussyCall].length
    ∧ fussyRegistry.get_tool fussyCall.name = some fussyTool
    ∧ fussyTool.validate_parameters fussyCall.arguments = false
    ∧ (execute_tool_calls fussyRegistry [fussyCall] [0])[0]? =
      some { tool_name := "fussy", success := false, result := none,
             error := some "Invalid parameters for tool fussy",
             execution_time := none } := by
  have hco : CompleteOrder [0] [fussyCall].length := completeOrder_single
  exact ⟨hco, rfl, rfl,
    claim_C5_amended_invalid fussyRegistry [fussyCall] [0] hco 0 (by decide)
      fussyTool rfl rfl⟩

/-- C6: every outcome produced by the Executor populates exactly one of
`result`/`error`, in agreement with `success`. -/
theorem claim_C6_result_error_exclusive (registry : ToolRegistry)
    (tool_calls : List ToolCall) (order : List Nat)
    (h : CompleteOrder order tool_calls.length) (r : ExecutionResult)
    (hr : r ∈ execute_tool_calls registry tool_calls order) :
    (r.success = true → r.result.isSome = true ∧ r.error = none)
    ∧ (r.success = false → r.result = none ∧ r.error.isSome = true) := by
  rw [execute_tool_calls_complete registry tool_calls order h] at hr
  rcases List.mem_map.mp hr with ⟨c, hc, hcr⟩
  subst hcr
  cases hg : registry.get_tool c.name with
  | none =>
    rw [est_not_found registry c hg]
    exact ⟨fun hs => by simp [collectResult] at hs, fun _ => by simp [collectResult]⟩
  | some tool =>
    cases hv : tool.validate_parameters c.arguments with
    | false =>
      rw [est_invalid registry c tool hg hv]
      exact ⟨fun hs => by simp [collectResult] at hs, fun _ => by simp [collectResult]⟩
    | true =>
      rw [est_ok registry c tool hg hv]
      rcases execute_cases tool c.arguments with ⟨v, hex⟩ | ⟨e, hex⟩
      · rw [hex]
        exact ⟨fun _ => by simp [collectResult], fun hs => by simp [collectResult] at hs⟩
      · rw [hex]
        exact ⟨fun hs => by simp [collectResult] at hs, fun _ => by simp [collectResult]⟩

/-- Witness for C6: the successful `addCall` outcome in a mixed batch
populates `result` and not `error`. -/
theorem claim_C6_result_error_exclusive_witness :
    CompleteOrder [0, 1] [addCall, boomCall].length
    ∧ ({ tool_name := "add", success := true,
         result := some (Value.vDict [("sum", Value.vInt 5)]), error := none,
         execution_time := some 2 } : ExecutionResult)
        ∈ execute_tool_calls sampleRegistry [addCall, boomCall] [0, 1]
    ∧ (({ tool_name := "add", success := true,
          result := some (Value.vDict [("sum", Value.vInt 5)]), error := none,
          execution_time := some 2 } : ExecutionResult).success = true →
        ({ tool_name := "add", success := true,
           result := some (Value.vDict [("sum", Value.vInt 5)]), error := none,
           execution_time := some 2 } : ExecutionResult).result.isSome = true
        ∧ ({ tool_name := "add", success := true,
             result := some (Value.vDict [("sum", Value.vInt 5)]), error := none,
             execution_time := some 2 } : ExecutionResult).error = none) := by
  have hco : CompleteOrder [0, 1] [addCall, boomCall].length := completeOrder_pair01
  have hev : execute_tool_calls sampleRegistry [addCall, boomCall] [0, 1]
      = [({ tool_name := "add", success := true,
            result := some (Value.vDict [("sum", Value.vInt 5)]), error := none,
            execution_time := some 2 } : ExecutionResult),
         ({ tool_name := "boom", success := false, result := none,
            error := some "boom", execution_time := some 1 } : ExecutionResult)] := rfl
  have hmem : ({ tool_name := "add", success := true,
                 result := some (Value.vDict [("sum", Value.vInt 5)]), error := none,
                 execution_time := some 2 } : ExecutionResult)
      ∈ execute_tool_calls sampleRegistry [addCall, boomCall] [0, 1] := by
    rw [hev]
    exact List.mem_cons_self _ _
  exact ⟨hco, hmem,
    (claim_C6_result_error_exclusive sampleRegistry [addCall, boomCall] [0, 1]
      hco _ hmem).1⟩

/-- C7 as stated is false: the outcome for an unresolved tool name has
no `execution_time` (`None`), so `executionTimeSeconds` is not always
present; shown at the concrete call `fooCall` against an empty
registry. -/
theorem claim_C7_counterexample :
    ((execute_tool_calls ToolRegistry.empty [fooCall] [0]).map
      ExecutionResult.execution_time = [none])
    ∧ ¬ (∀ r ∈ execute_tool_calls ToolRegistry.empty [fooCall] [0],
        r.execution_time.isSome = true) :=
  ⟨rfl, by decide⟩

/-- C7 (amended): an Executor outcome carries an `execution_time`
exactly when its call resolved to a registered tool whose
`validate_parameters` accepted the arguments (i.e. when a timed
execution ran); resolution and validation failures carry none. -/
theorem claim_C7_amended_time_presence (registry : ToolRegistry)
    (tool_calls : List ToolCall) (order : List Nat)
    (h : CompleteOrder order tool_calls.length) (i : Nat)
    (hi : i < tool_calls.length) (r : ExecutionResult)
    (hr : (execute_tool_calls registry tool_calls order)[i]? = some r) :
    r.execution_time.isSome = true ↔
      ∃ tool, registry.get_tool tool_calls[i].name = some tool
        ∧ tool.validate_parameters tool_calls[i].arguments = true := by
  rw [execute_tool_calls_getElem? registry tool_calls order h i hi,
    Option.some.injEq] at hr
  subst hr
  cases hg : registry.get_tool tool_calls[i].name with
  | none =>
    rw [est_not_found registry tool_calls[i] hg]
    constructor
    · intro habs
      simp [collectResult] at habs
    · rintro ⟨tool, htool, -⟩
      simp at htool
  | some tool =>
    cases hv : tool.validate_parameters tool_calls[i].arguments with
    | false =>
      rw [est_invalid registry tool_calls[i] tool hg hv]
      constructor
      · intro habs
        simp [collectResult] at habs
      · rintro ⟨tool2, htool2, hv2⟩
        rw [Option.some.injEq] at htool2
        subst htool2
        simp [hv] at hv2
    | true =>
      rw [est_ok registry tool_calls[i] tool hg hv]
      constructor
      · intro _
        exact ⟨tool, rfl, hv⟩
      · intro _
        rcases execute_cases tool tool_calls[i].arguments with ⟨v, hex⟩ | ⟨e, hex⟩
        · simp [collectResult, hex]
        · simp [collectResult, hex]

/-- Witness for C7 (amended): positive direction at `addCall` against
`sampleRegistry` — the outcome of a resolved, validated call carries an
execution time. -/
theorem claim_C7_amended_time_presence_witness :
    CompleteOrder [0] [addCall].length
    ∧ (execute_tool_calls sampleRegistry [addCall] [0])[0]? =
        some { tool_name := "add", success := true,
               result := some (Value.vDict [("sum", Value.vInt 5)]), error := none,
               execution_time := some 2 }
    ∧ (({ tool_name := "add", success := true,
          result := some (Value.vDict [("sum", Value.vInt 5)]), error := none,
          execution_time := some 2 } : ExecutionResult).execution_time.isSome = true ↔
        ∃ tool, sampleRegistry.get_tool addCall.name = some tool
          ∧ tool.validate_parameters addCall.arguments = true) := by
  have hco : CompleteOrder [0] [addCall].length := completeOrder_single
  exact ⟨hco, rfl,
    claim_C7_amended_time_presence sampleRegistry [addCall] [0] hco 0 (by decide) _ rfl⟩

/-- C9: the orchestrator returns the provider's text directly when no
tool calls were requested; otherwise it runs the calls through the
Executor and returns the provider's synthesis of the original user
text with the full outcome list. -/
theorem claim_C9_orchestration (user_input : String)
    (pui : String → List ToolSchema → LLMResponse)
    (gfr : String → List ExecutionResult → String)
    (registry : ToolRegistry) (order : List Nat) :
    ((pui user_input registry.get_all_schemas).tool_calls = [] →
      process_single_request user_input pui gfr registry order
        = (pui user_input registry.get_all_schemas).content)
    ∧ ((pui user_input registry.get_all_schemas).tool_calls ≠ [] →
      process_single_request user_input pui gfr registry order
        = gfr user_input (execute_tool_calls registry
            (pui user_input registry.get_all_schemas).tool_calls order)) := by
  constructor
  · intro hempty
    unfold process_single_request
    simp [hempty]
  · intro hne
    unfold process_single_request
    rw [if_neg]
    simpa [List.isEmpty_iff] using hne

/-- Witness for C9: a provider returning no calls yields its text; a
provider returning `addCall` yields the synthesis of the outcomes. -/
theorem claim_C9_orchestration_witness :
    (puiNoCalls "hi" sampleRegistry.get_all_schemas).tool_calls = []
    ∧ process_single_request "hi" puiNoCalls gfrLen sampleRegistry [0] = "plain answer"
    ∧ (puiWithCalls "hi" sampleRegistry.get_all_schemas).tool_calls ≠ []
    ∧ process_single_request "hi" puiWithCalls gfrLen sampleRegistry [0]
        = gfrLen "hi" (execute_tool_calls sampleRegistry
            (puiWithCalls "hi" sampleRegistry.get_all_schemas).tool_calls [0]) := by
  refine ⟨rfl, ?_, ?_, ?_⟩
  · exact (claim_C9_orchestration "hi" puiNoCalls gfrLen sampleRegistry [0]).1 rfl
  · simp [puiWithCalls]
  · exact (claim_C9_orchestration "hi" puiWithCalls gfrLen sampleRegistry [0]).2
      (by simp [puiWithCalls])

end ToolCaller
